/-
Verification of the earnings-call-backtest backend (backend/app).

Shallow embedding of the core engine: `BacktestService.run_backtest`,
`BacktestService.get_single_stock_backtest`, `BacktestService.search_stock_earnings`
and their helpers from `backtest_service.py`, the price/calendar access layer from
`fmp_service.py`, and the timing layer from `finnhub_service.py`.

Modelling conventions:
- Calendar dates are integers (day numbers); `d + 1` is the next calendar day,
  matching Python `date + timedelta(days=1)`.  `(today - d).days` becomes `today - d`.
- Prices and market caps are rationals (the source computes with floats; the claims
  under audit are about exact arithmetic identities, which we read over ℚ).
- Python `round(x, 4)` is round-half-to-even at 4 decimal places (`round4` below).
- HTTP providers are oracles recorded in a `World`: per-symbol ground-truth bar
  lists (a window query returns the bars whose date lies in the requested range),
  the parsed earnings-calendar response (`none` models a failed fetch: the code
  catches the exception and yields `[]`), the Finnhub bulk response as a function
  of the requested range, and per-(symbol,date) oracles for the Finnhub single
  lookup result and the FMP transcript heuristic result.
- Python dict insertion with string keys `f"{symbol}_{date}"` is modelled by an
  association list over `(String × Int)` keys where the *last* binding wins,
  exactly dict overwrite semantics (ISO date formatting is injective).
- An unhandled Python `ZeroDivisionError` is modelled by `Except`: the per-event
  body returns `.error` when the selected before-bar close is zero, and the event
  loops propagate the first error, aborting the whole request.
-/
import Mathlib

set_option maxRecDepth 8000

attribute [local semireducible] Rat.add Rat.sub Rat.mul Rat.inv

/-! ### Data model (`models/schemas.py`) -/

/-- `StockPrice` from `models/schemas.py` (one daily OHLCV bar). -/
structure StockPrice where
  symbol : String
  date : Int
  open_ : ℚ
  high : ℚ
  low : ℚ
  close : ℚ
  volume : Int
deriving DecidableEq

/-- `EarningsEvent` from `models/schemas.py`. -/
structure EarningsEvent where
  symbol : String
  company_name : String
  earnings_date : Int
  fiscal_quarter : Option String := none
  fiscal_year : Option Int := none
  eps_estimate : Option ℚ := none
  eps_actual : Option ℚ := none
  revenue_estimate : Option ℚ := none
  revenue_actual : Option ℚ := none
deriving DecidableEq

/-- `CompanyProfile` from `models/schemas.py`. -/
structure CompanyProfile where
  symbol : String
  company_name : String
  market_cap : ℚ
  sector : Option String := none
  industry : Option String := none
deriving DecidableEq

/-- `BacktestResult` from `models/schemas.py` (the ReactionRecord of the spec). -/
structure BacktestResult where
  symbol : String
  company_name : String
  market_cap : ℚ
  earnings_date : Int
  earnings_time : Option String := none
  price_before : ℚ
  price_after : ℚ
  price_change_pct : ℚ
  date_before : Int
  date_after : Int
deriving DecidableEq

/-- One raw item of the FMP `earnings-calendar` response.  `symbol = none` models a
missing symbol field; `date = none` models a missing *or unparseable* date string
(both are skipped by the same `continue` in `fmp_service.get_earnings_calendar`). -/
structure CalendarItem where
  symbol : Option String
  date : Option Int
  epsActual : Option ℚ := none
  epsEstimated : Option ℚ := none
  revenueActual : Option ℚ := none
  revenueEstimated : Option ℚ := none
deriving DecidableEq

/-- One raw entry of the Finnhub `calendar/earnings` response.  `date = none`
models a missing/empty date string (falsy in Python). -/
structure FinnhubEntry where
  symbol : String
  date : Option Int
  hour : String
deriving DecidableEq

/-- The Python `ZeroDivisionError` raised by the unguarded division
`(price_after.close - price_before.close) / price_before.close`. -/
structure ZeroDivError where
  symbol : String
  earnings_date : Int
deriving DecidableEq

instance {ε α : Type} [DecidableEq ε] [DecidableEq α] : DecidableEq (Except ε α) := fun a b =>
  match a, b with
  | .ok x, .ok y => if h : x = y then isTrue (by rw [h]) else isFalse (by simpa using h)
  | .error x, .error y => if h : x = y then isTrue (by rw [h]) else isFalse (by simpa using h)
  | .ok _, .error _ => isFalse (by simp)
  | .error _, .ok _ => isFalse (by simp)

/-- The upstream world a single request runs against (all providers are read-only
for the duration of the request). -/
structure World where
  /-- Parsed FMP earnings-calendar response; `none` = the fetch raised
  (timeout / transport error / 5xx), which `get_earnings_calendar` catches. -/
  calendarRaw : Option (List CalendarItem)
  /-- `get_large_cap_symbols_set` result (empty on screener failure). -/
  largeCaps : List String
  /-- `get_company_profile` per symbol; `none` = no data / fetch failure
  (batch fetch drops failures). -/
  profiles : String → Option CompanyProfile
  /-- Ground-truth daily bars per symbol; a ranged price query returns the bars
  whose date lies inside the requested window. -/
  bars : String → List StockPrice
  /-- `true` when `get_prices_around_earnings(symbol, date)` raises. -/
  pricesFail : String → Int → Bool
  /-- Finnhub bulk `calendar/earnings` response for a requested `[lo, hi]` range. -/
  finnhubBulk : Int → Int → List FinnhubEntry
  /-- Result of the Finnhub single-pair lookup scan
  (`FinnhubService.get_earnings_time` after its own date guard). -/
  finnhubSingle : String → Int → Option String
  /-- Result of `FMPService.get_earnings_time_from_transcript`. -/
  transcriptTime : String → Int → Option String
  /-- Per-symbol history events parsed from `earning-call-transcript-dates`. -/
  history : String → List EarningsEvent
  /-- `date.today()`. -/
  today : Int

/-! ### Small helpers -/

/-- Python truthiness of an optional string (`None` and `""` are falsy). -/
def truthyStr : Option String → Bool
  | none => false
  | some s => !(s == "")

/-- Python `round(q * 10^4)` core: round half to even, as an integer. -/
def roundHalfEven (q : ℚ) : ℤ :=
  if Int.fract q < 1 / 2 then ⌊q⌋
  else if 1 / 2 < Int.fract q then ⌊q⌋ + 1
  else if ⌊q⌋ % 2 = 0 then ⌊q⌋ else ⌊q⌋ + 1

/-- Python `round(q, 4)`: round half to even at 4 decimal places, over exact
rationals.  CPython rounds the binary double nearest to the rational, so the
two agree whenever the value is exactly representable as a double (in
particular on every dyadic rational, and on all non-tie values); only at a
decimal half-point that is not a double (e.g. 2001/20000) does the float
program see a perturbed value and round to its nearer side instead.
Statements that exercise tie behaviour therefore use dyadic inputs. -/
def round4 (q : ℚ) : ℚ := (roundHalfEven (q * 10000) : ℚ) / 10000

/-! ### Price access layer (`fmp_service.py`) -/

/-- Bars of the ranged `historical-price-eod/full` query for `[lo, hi]`. -/
def windowBars (bars : List StockPrice) (lo hi : Int) : List StockPrice :=
  bars.filter (fun p => decide (lo ≤ p.date) && decide (p.date ≤ hi))

/-- Sort key order used by `sorted(..., key=lambda x: x["date"])` (ISO strings sort
chronologically, so this is ascending date order). -/
def priceDateLE (a b : StockPrice) : Prop := a.date ≤ b.date

/-- Descending date order (`sorted(..., reverse=True)`). -/
def priceDateGE (a b : StockPrice) : Prop := b.date ≤ a.date

instance : DecidableRel priceDateLE := fun a b => inferInstanceAs (Decidable (a.date ≤ b.date))

instance : DecidableRel priceDateGE := fun a b => inferInstanceAs (Decidable (b.date ≤ a.date))

instance : IsTotal StockPrice priceDateLE := ⟨fun a b => le_total a.date b.date⟩

instance : IsTrans StockPrice priceDateLE := ⟨fun _ _ _ h h' => le_trans h h'⟩

instance : IsTotal StockPrice priceDateGE := ⟨fun a b => le_total b.date a.date⟩

instance : IsTrans StockPrice priceDateGE := ⟨fun _ _ _ h h' => le_trans h' h⟩

/-- `FMPService.get_historical_price(symbol, target_date)`: query `[target-5, target+5]`,
sort ascending, take the first bar dated `≥ target`, else fall back to the *last*
bar of the window. -/
def get_historical_price (bars : List StockPrice) (target : Int) : Option StockPrice :=
  let window := windowBars bars (target - 5) (target + 5)
  if window = [] then none
  else
    let sorted := List.insertionSort priceDateLE window
    match sorted.find? (fun p => decide (target ≤ p.date)) with
    | some p => some p
    | none => sorted.getLast?

/-- `FMPService.get_next_trading_day_price(symbol, earnings_date)`. -/
def get_next_trading_day_price (bars : List StockPrice) (earnings_date : Int) : Option StockPrice :=
  get_historical_price bars (earnings_date + 1)

/-- `FMPService.get_price_before_earnings(symbol, earnings_date)`: query
`[earnings_date-5, earnings_date]`, sort descending, take the first bar dated
`≤ earnings_date`. -/
def get_price_before_earnings (bars : List StockPrice) (earnings_date : Int) : Option StockPrice :=
  let window := windowBars bars (earnings_date - 5) earnings_date
  if window = [] then none
  else
    let sorted := List.insertionSort priceDateGE window
    sorted.find? (fun p => decide (p.date ≤ earnings_date))

/-- `FMPService.get_prices_around_earnings(symbol, earnings_date)`: all bars in
`[earnings_date-7, earnings_date+7]`. -/
def get_prices_around_earnings (bars : List StockPrice) (earnings_date : Int) : List StockPrice :=
  windowBars bars (earnings_date - 7) (earnings_date + 7)

/-- ADR suffix list from `fmp_service.get_earnings_calendar`. -/
def adr_suffixes : List (List Char) :=
  ["ADR".data, "ADS".data, "CY".data, "GF".data, "HY".data, "TY".data,
   "PY".data, "LY".data, "EY".data, "AY".data, "UY".data]

/-- The ticker exclusion heuristic of `fmp_service.get_earnings_calendar`:
tickers containing `"."`, tickers with a recognised ADR suffix, and tickers
longer than 3 characters ending in `Y`/`F` whose remaining characters are
alphabetic.  (Python `str.isalpha` is modelled by `Char.isAlpha`; tickers are
ASCII.) -/
def isExcludedTicker (s : String) : Bool :=
  let cs := s.data
  cs.contains '.'
    || adr_suffixes.any (fun suf => suf.isSuffixOf cs)
    || (decide (cs.length > 3)
        && (cs.getLast? == some 'Y' || cs.getLast? == some 'F')
        && cs.dropLast.all Char.isAlpha)

/-- `FMPService.get_earnings_calendar`: parse the response, skipping items with a
falsy symbol or date and excluded tickers; a failed fetch (`raw = none`) is caught
and yields `[]`. -/
def get_earnings_calendar (raw : Option (List CalendarItem)) : List EarningsEvent :=
  match raw with
  | none => []
  | some items =>
    items.filterMap (fun it =>
      match it.symbol, it.date with
      | some s, some d =>
        if s = "" then none
        else if isExcludedTicker s then none
        else some
          { symbol := s, company_name := s, earnings_date := d,
            eps_actual := it.epsActual, eps_estimate := it.epsEstimated,
            revenue_actual := it.revenueActual, revenue_estimate := it.revenueEstimated }
      | _, _ => none)

/-- Descending date order on history events (`events.sort(key=..., reverse=True)`). -/
def eventDateGE (a b : EarningsEvent) : Prop := b.earnings_date ≤ a.earnings_date

instance : DecidableRel eventDateGE := fun a b =>
  inferInstanceAs (Decidable (b.earnings_date ≤ a.earnings_date))

instance : IsTotal EarningsEvent eventDateGE := ⟨fun a b => le_total b.earnings_date a.earnings_date⟩

instance : IsTrans EarningsEvent eventDateGE := ⟨fun _ _ _ h h' => le_trans h' h⟩

/-- `FMPService.get_stock_earnings_history(symbol, from, to)`: the per-symbol
transcript-dates events restricted to the range, newest first. -/
def get_stock_earnings_history (w : World) (symbol : String) (from_ to_ : Int) :
    List EarningsEvent :=
  let events := (w.history symbol).filter
    (fun e => !(decide (e.earnings_date < from_) || decide (to_ < e.earnings_date)))
  List.insertionSort eventDateGE events

/-! ### Timing layer (`finnhub_service.py` and the waterfall in `backtest_service.py`) -/

/-- `FinnhubService._map_hour_to_time`: `"bmo"`→`"BMO"`, `"amc"`→`"AMC"`,
anything else (including `"dmh"` and `""`)→`none`. -/
def map_hour_to_time (hour : String) : Option String :=
  let hour_lower : List Char := hour.data.map Char.toLower
  if hour_lower = "bmo".data then some "BMO"
  else if hour_lower = "amc".data then some "AMC"
  else none

/-- Association-list lookup with Python-dict semantics (last binding wins). -/
def dictLookup (m : List ((String × Int) × String)) (k : String × Int) : Option String :=
  ((m.filter (fun kv => decide (kv.1 = k))).getLast?).map (fun kv => kv.2)

/-- `FinnhubService.batch_get_earnings_time(from, to)` applied to the provider
response `resp`: keeps entries with truthy symbol, date and hour whose hour code
maps to BMO/AMC; returns the `"SYMBOL_date" → time` dict.  The leading guard
returns `{}` when `from` is already more than 30 days old. -/
def batch_get_earnings_time (today from_ : Int) (resp : List FinnhubEntry) :
    List ((String × Int) × String) :=
  if today - from_ > 30 then []
  else
    resp.filterMap (fun e =>
      match e.date with
      | some d =>
        if e.symbol = "" then none
        else if e.hour = "" then none
        else (map_hour_to_time e.hour).map (fun t => ((e.symbol, d), t))
      | none => none)

/-- `FinnhubService.get_earnings_time(symbol, earnings_date)`: returns `none`
without any API call when the date is more than 30 days old, else the result of
scanning the ±1 day calendar response (oracled by `w.finnhubSingle`). -/
def finnhub_get_earnings_time (w : World) (symbol : String) (earnings_date : Int) :
    Option String :=
  if w.today - earnings_date > 30 then none
  else w.finnhubSingle symbol earnings_date

/-- `BacktestService._get_finnhub_earnings_times(start, end)`: clamp the range to
`[today-30, today]`; if empty, skip the bulk provider entirely, else delegate to
the bulk fetch. -/
def get_finnhub_earnings_times (w : World) (start_ end_ : Int) :
    List ((String × Int) × String) :=
  let query_start := max start_ (w.today - 30)
  let query_end := min end_ w.today
  if query_start > query_end then []
  else batch_get_earnings_time w.today query_start (w.finnhubBulk query_start query_end)

/-- `BacktestService._get_earnings_time(symbol, earnings_date, finnhub_times)`,
instrumented: the second component records whether the Finnhub single-pair
lookup was invoked.  Order: pre-fetched dict → (within 30 days) single lookup →
transcript heuristic. -/
def get_earnings_time_core (w : World) (symbol : String) (earnings_date : Int)
    (finnhub_times : List ((String × Int) × String)) : Option String × Bool :=
  match dictLookup finnhub_times (symbol, earnings_date) with
  | some t => (some t, false)
  | none =>
    if w.today - earnings_date ≤ 30 then
      let ft := finnhub_get_earnings_time w symbol earnings_date
      if truthyStr ft then (ft, true)
      else (w.transcriptTime symbol earnings_date, true)
    else (w.transcriptTime symbol earnings_date, false)

/-! ### Window resolution (`BacktestService._determine_prices` and fallback) -/

/-- The date→bar dict built in `_determine_prices`: Python stable-sorts by date
and then inserts into a dict, so for duplicate dates the last bar in the
original order wins — i.e. the last bar of the list with the given date. -/
def priceMapLookup (prices : List StockPrice) (d : Int) : Option StockPrice :=
  (prices.filter (fun p => decide (p.date = d))).getLast?

/-- The `for i in range(1, 6)` scans: first offset in `offs` whose date has a bar. -/
def scanOffsets (prices : List StockPrice) (base : Int) : List Int → Option StockPrice
  | [] => none
  | i :: rest =>
    match priceMapLookup prices (base + i) with
    | some p => some p
    | none => scanOffsets prices base rest

/-- Nearest bar in `[d-5, d-1]`, smallest offset wins. -/
def dayBeforePrice (prices : List StockPrice) (d : Int) : Option StockPrice :=
  scanOffsets prices d [-1, -2, -3, -4, -5]

/-- Nearest bar in `[d+1, d+5]`, smallest offset wins. -/
def dayAfterPrice (prices : List StockPrice) (d : Int) : Option StockPrice :=
  scanOffsets prices d [1, 2, 3, 4, 5]

/-- `BacktestService._determine_prices(earnings_date, prices, transcript_time)`.
Returns `(earnings_time, price_before, price_after)`; `(none, none, none)` is the
"insufficient data / skip" result. -/
def determine_prices (earnings_date : Int) (prices : List StockPrice)
    (transcript_time : Option String) :
    Option String × Option StockPrice × Option StockPrice :=
  let earnings_day_price := priceMapLookup prices earnings_date
  let day_before_price := dayBeforePrice prices earnings_date
  let day_after_price := dayAfterPrice prices earnings_date
  if earnings_day_price.isNone && day_after_price.isSome then
    if truthyStr transcript_time then (transcript_time, day_before_price, day_after_price)
    else (none, none, none)
  else if earnings_day_price.isNone || day_before_price.isNone then (none, none, none)
  else if !truthyStr transcript_time then (none, none, none)
  else if transcript_time = some "BMO" then (some "BMO", day_before_price, earnings_day_price)
  else if day_after_price.isSome then (some "AMC", earnings_day_price, day_after_price)
  else (none, none, none)

/-- `BacktestService._determine_prices_fallback(earnings_date, prices)`: bar at the
event date (or nearest prior within 5 days) vs. nearest later bar within 5 days;
`earnings_time` is always `none`. -/
def determine_prices_fallback (earnings_date : Int) (prices : List StockPrice) :
    Option String × Option StockPrice × Option StockPrice :=
  let day_after_price := dayAfterPrice prices earnings_date
  let earnings_day_price :=
    match priceMapLookup prices earnings_date with
    | some p => some p
    | none => dayBeforePrice prices earnings_date
  if earnings_day_price.isSome && day_after_price.isSome then
    (none, earnings_day_price, day_after_price)
  else (none, none, none)

/-! ### ReactionEngine orchestration (`backtest_service.py`) -/

/-- Descending |percentage change| order, the `run_backtest` output order
(`results.sort(key=lambda x: abs(x.price_change_pct), reverse=True)`; Python's
sort is stable, as is `List.insertionSort`). -/
def absPctGE (a b : BacktestResult) : Prop := |b.price_change_pct| ≤ |a.price_change_pct|

instance : DecidableRel absPctGE := fun a b =>
  inferInstanceAs (Decidable (|b.price_change_pct| ≤ |a.price_change_pct|))

instance : IsTotal BacktestResult absPctGE :=
  ⟨fun a b => le_total |b.price_change_pct| |a.price_change_pct|⟩

instance : IsTrans BacktestResult absPctGE := ⟨fun _ _ _ h h' => le_trans h' h⟩

/-- Descending announcement-date order, the `search_stock_earnings` output order. -/
def resultDateGE (a b : BacktestResult) : Prop := b.earnings_date ≤ a.earnings_date

instance : DecidableRel resultDateGE := fun a b =>
  inferInstanceAs (Decidable (b.earnings_date ≤ a.earnings_date))

instance : IsTotal BacktestResult resultDateGE :=
  ⟨fun a b => le_total b.earnings_date a.earnings_date⟩

instance : IsTrans BacktestResult resultDateGE := ⟨fun _ _ _ h h' => le_trans h' h⟩

/-- The dedup loop of `run_backtest`: first occurrence of each `(symbol, date)` wins. -/
def dedup_events (seen : List (String × Int)) : List EarningsEvent → List EarningsEvent
  | [] => []
  | e :: rest =>
    if (e.symbol, e.earnings_date) ∈ seen then dedup_events seen rest
    else e :: dedup_events ((e.symbol, e.earnings_date) :: seen) rest

/-- The body of `run_backtest`'s per-event loop: market-cap filter, price fetch
(dropping the event when the fetch raises or fewer than 2 bars return), timing
waterfall, window resolution, the *unguarded* percentage-change division, and the
significance-threshold filter.  `.ok none` = the event is skipped; `.error` = the
division raised `ZeroDivisionError`. -/
def process_event (w : World) (min_market_cap threshold : ℚ)
    (finnhub_times : List ((String × Int) × String)) (event : EarningsEvent) :
    Except ZeroDivError (Option BacktestResult) :=
  match w.profiles event.symbol with
  | none => .ok none
  | some profile =>
    if profile.market_cap < min_market_cap then .ok none
    else if w.pricesFail event.symbol event.earnings_date then .ok none
    else
      let prices := get_prices_around_earnings (w.bars event.symbol) event.earnings_date
      if prices.length < 2 then .ok none
      else
        let earnings_time_value :=
          (get_earnings_time_core w event.symbol event.earnings_date finnhub_times).1
        match determine_prices event.earnings_date prices earnings_time_value with
        | (earnings_time, some price_before, some price_after) =>
          if price_before.close = 0 then .error ⟨event.symbol, event.earnings_date⟩
          else
            let price_change_pct := (price_after.close - price_before.close) / price_before.close
            if |price_change_pct| < threshold then .ok none
            else .ok (some
              { symbol := event.symbol
                company_name := profile.company_name
                market_cap := profile.market_cap
                earnings_date := event.earnings_date
                earnings_time := earnings_time
                price_before := price_before.close
                price_after := price_after.close
                price_change_pct := round4 price_change_pct
                date_before := price_before.date
                date_after := price_after.date })
        | _ => .ok none

/-- The shape shared by the two per-event `for` loops (`run_backtest` and
`search_stock_earnings`): apply the body to each event, collect the emitted
records in order, and let the first unhandled `ZeroDivisionError` abort the loop. -/
def event_loop (step : EarningsEvent → Except ZeroDivError (Option BacktestResult)) :
    List EarningsEvent → Except ZeroDivError (List BacktestResult)
  | [] => .ok []
  | e :: rest =>
    match step e with
    | .error z => .error z
    | .ok r? =>
      match event_loop step rest with
      | .error z => .error z
      | .ok rs =>
        .ok (match r? with
          | some r => r :: rs
          | none => rs)

/-- The `run_backtest` event loop; the first `ZeroDivisionError` aborts it. -/
def run_events (w : World) (min_market_cap threshold : ℚ)
    (finnhub_times : List ((String × Int) × String)) :
    List EarningsEvent → Except ZeroDivError (List BacktestResult) :=
  event_loop (process_event w min_market_cap threshold finnhub_times)

/-- Events surviving the large-cap pre-filter and dedup in `run_backtest`. -/
def backtest_filtered_events (w : World) : List EarningsEvent :=
  let events := get_earnings_calendar w.calendarRaw
  let filtered := if w.largeCaps = [] then events
    else events.filter (fun e => w.largeCaps.contains e.symbol)
  dedup_events [] filtered

/-- The `results` list of `run_backtest` just before the final sort. -/
def backtest_emissions (w : World) (start_ end_ : Int) (min_market_cap threshold : ℚ) :
    Except ZeroDivError (List BacktestResult) :=
  run_events w min_market_cap threshold (get_finnhub_earnings_times w start_ end_)
    (backtest_filtered_events w)

/-- `BacktestService.run_backtest(request)` with
`request = (start_date, end_date, min_market_cap)` and
`threshold = settings.price_change_threshold` (default `0.10`). -/
def run_backtest (w : World) (start_ end_ : Int) (min_market_cap threshold : ℚ) :
    Except ZeroDivError (List BacktestResult) :=
  if get_earnings_calendar w.calendarRaw = [] then .ok []
  else (backtest_emissions w start_ end_ min_market_cap threshold).map
    (List.insertionSort absPctGE)

/-- `BacktestService.get_single_stock_backtest(symbol, earnings_date)`: no timing
classification; before = trading day at/just before the date, after =
`get_next_trading_day_price`. -/
def get_single_stock_backtest (w : World) (symbol : String) (earnings_date : Int) :
    Except ZeroDivError (Option BacktestResult) :=
  match w.profiles symbol with
  | none => .ok none
  | some profile =>
    match get_price_before_earnings (w.bars symbol) earnings_date with
    | none => .ok none
    | some price_before =>
      match get_next_trading_day_price (w.bars symbol) earnings_date with
      | none => .ok none
      | some price_after =>
        if price_before.close = 0 then .error ⟨symbol, earnings_date⟩
        else .ok (some
          { symbol := symbol
            company_name := profile.company_name
            market_cap := profile.market_cap
            earnings_date := earnings_date
            earnings_time := none
            price_before := price_before.close
            price_after := price_after.close
            price_change_pct :=
              round4 ((price_after.close - price_before.close) / price_before.close)
            date_before := price_before.date
            date_after := price_after.date })

/-- The body of `search_stock_earnings`'s per-event loop: like `process_event` but
with no market-cap and no significance filter, and with the
`_determine_prices_fallback` second attempt when strict resolution yields a
missing before/after price. -/
def search_process_event (w : World) (profile : CompanyProfile)
    (finnhub_times : List ((String × Int) × String)) (event : EarningsEvent) :
    Except ZeroDivError (Option BacktestResult) :=
  if w.pricesFail event.symbol event.earnings_date then .ok none
  else
    let prices := get_prices_around_earnings (w.bars event.symbol) event.earnings_date
    if prices.length < 2 then .ok none
    else
      let earnings_time_value :=
        (get_earnings_time_core w event.symbol event.earnings_date finnhub_times).1
      let strict := determine_prices event.earnings_date prices earnings_time_value
      let resolved :=
        if strict.2.1.isNone || strict.2.2.isNone then
          determine_prices_fallback event.earnings_date prices
        else strict
      match resolved with
      | (earnings_time, some price_before, some price_after) =>
        if price_before.close = 0 then .error ⟨event.symbol, event.earnings_date⟩
        else .ok (some
          { symbol := event.symbol
            company_name := profile.company_name
            market_cap := profile.market_cap
            earnings_date := event.earnings_date
            earnings_time := earnings_time
            price_before := price_before.close
            price_after := price_after.close
            price_change_pct :=
              round4 ((price_after.close - price_before.close) / price_before.close)
            date_before := price_before.date
            date_after := price_after.date })
      | _ => .ok none

/-- The `search_stock_earnings` event loop. -/
def search_events (w : World) (profile : CompanyProfile)
    (finnhub_times : List ((String × Int) × String)) :
    List EarningsEvent → Except ZeroDivError (List BacktestResult) :=
  event_loop (search_process_event w profile finnhub_times)

/-- The `results` list of `search_stock_earnings` just before the final sort. -/
def search_emissions (w : World) (symbol : String) (start_ end_ : Int) :
    Except ZeroDivError (List BacktestResult) :=
  match w.profiles symbol with
  | none => .ok []
  | some profile =>
    let events := get_stock_earnings_history w symbol start_ end_
    if events = [] then .ok []
    else search_events w profile (get_finnhub_earnings_times w start_ end_) events

/-- `BacktestService.search_stock_earnings(symbol, start_date, end_date)`:
per-symbol history query, fallback window resolution, no significance threshold,
sorted by announcement date descending. -/
def search_stock_earnings (w : World) (symbol : String) (start_ end_ : Int) :
    Except ZeroDivError (List BacktestResult) :=
  (search_emissions w symbol start_ end_).map (List.insertionSort resultDateGE)

/-! ### Concrete scenarios used by witnesses and counterexamples -/

/-- A three-symbol AMC earnings day: AAA moves +10 %, BBB +20 %, CCC −10 %. -/
def demo_world : World where
  calendarRaw := some [⟨some "AAA", some 0, none, none, none, none⟩, ⟨some "BBB", some 0, none, none, none, none⟩, ⟨some "CCC", some 0, none, none, none, none⟩]
  largeCaps := []
  profiles := fun s =>
    if s = "AAA" then some ⟨"AAA", "Aco", 2000000000, none, none⟩
    else if s = "BBB" then some ⟨"BBB", "Bco", 3000000000, none, none⟩
    else if s = "CCC" then some ⟨"CCC", "Cco", 4000000000, none, none⟩
    else none
  bars := fun s =>
    if s = "AAA" then
      [⟨"AAA", -1, 50, 50, 50, 50, 0⟩, ⟨"AAA", 0, 100, 100, 100, 100, 0⟩,
       ⟨"AAA", 1, 110, 110, 110, 110, 0⟩]
    else if s = "BBB" then
      [⟨"BBB", -1, 50, 50, 50, 50, 0⟩, ⟨"BBB", 0, 100, 100, 100, 100, 0⟩,
       ⟨"BBB", 1, 120, 120, 120, 120, 0⟩]
    else if s = "CCC" then
      [⟨"CCC", -1, 50, 50, 50, 50, 0⟩, ⟨"CCC", 0, 100, 100, 100, 100, 0⟩,
       ⟨"CCC", 1, 90, 90, 90, 90, 0⟩]
    else []
  pricesFail := fun _ _ => false
  finnhubBulk := fun _ _ =>
    [⟨"AAA", some 0, "amc"⟩, ⟨"BBB", some 0, "amc"⟩, ⟨"CCC", some 0, "amc"⟩]
  finnhubSingle := fun _ _ => none
  transcriptTime := fun _ _ => none
  history := fun _ => []
  today := 0

def demo_rA : BacktestResult :=
  ⟨"AAA", "Aco", 2000000000, 0, some "AMC", 100, 110, 1 / 10, 0, 1⟩

def demo_rB : BacktestResult :=
  ⟨"BBB", "Bco", 3000000000, 0, some "AMC", 100, 120, 1 / 5, 0, 1⟩

def demo_rC : BacktestResult :=
  ⟨"CCC", "Cco", 4000000000, 0, some "AMC", 100, 90, -(1 / 10), 0, 1⟩

def demo_single : BacktestResult :=
  ⟨"AAA", "Aco", 2000000000, 0, none, 100, 110, 1 / 10, 0, 1⟩

/-- A per-symbol history scenario: two announcements (days 0 and 10), both more
than 30 days before `today = 100`, with no transcript match, so both resolve
through the assume-after-close fallback; the day-0 move is only +1 %. -/
def search_world : World where
  calendarRaw := none
  largeCaps := []
  profiles := fun s => if s = "HHH" then some ⟨"HHH", "Hco", 5000000000, none, none⟩ else none
  bars := fun s =>
    if s = "HHH" then
      [⟨"HHH", -1, 40, 40, 40, 40, 0⟩, ⟨"HHH", 0, 100, 100, 100, 100, 0⟩,
       ⟨"HHH", 1, 101, 101, 101, 101, 0⟩, ⟨"HHH", 9, 200, 200, 200, 200, 0⟩,
       ⟨"HHH", 10, 50, 50, 50, 50, 0⟩, ⟨"HHH", 11, 55, 55, 55, 55, 0⟩]
    else []
  pricesFail := fun _ _ => false
  finnhubBulk := fun _ _ => []
  finnhubSingle := fun _ _ => none
  transcriptTime := fun _ _ => none
  history := fun s =>
    if s = "HHH" then [⟨"HHH", "HHH", 0, none, none, none, none, none, none⟩, ⟨"HHH", "HHH", 10, none, none, none, none, none, none⟩] else []
  today := 100

def search_r10 : BacktestResult :=
  ⟨"HHH", "Hco", 5000000000, 10, none, 50, 55, 1 / 10, 10, 11⟩

def search_r0 : BacktestResult :=
  ⟨"HHH", "Hco", 5000000000, 0, none, 100, 101, 1 / 100, 0, 1⟩

/-- A symbol whose only bar sits on the event date itself: the single-stock
lookup then uses that same bar on both sides of the comparison. -/
def c1_world : World where
  calendarRaw := none
  largeCaps := []
  profiles := fun s => if s = "Z" then some ⟨"Z", "Zco", 1000000000, none, none⟩ else none
  bars := fun s => if s = "Z" then [⟨"Z", 0, 100, 100, 100, 100, 0⟩] else []
  pricesFail := fun _ _ => false
  finnhubBulk := fun _ _ => []
  finnhubSingle := fun _ _ => none
  transcriptTime := fun _ _ => none
  history := fun _ => []
  today := 0

def c1_record : BacktestResult :=
  ⟨"Z", "Zco", 1000000000, 0, none, 100, 100, 0, 0, 0⟩

/-- Bars on the event day and the next day only — no prior-day bar. -/
def c2_bar0 : StockPrice := ⟨"C2", 0, 100, 100, 100, 100, 0⟩

def c2_bar1 : StockPrice := ⟨"C2", 1, 110, 110, 110, 110, 0⟩

def c2_prices : List StockPrice := [c2_bar0, c2_bar1]

/-- A world whose single-lookup oracle would answer, but whose transcript
heuristic answers differently: the classification of a stale date must come from
the transcript, proving the single lookup was not consulted. -/
def c4_world : World where
  calendarRaw := none
  largeCaps := []
  profiles := fun _ => none
  bars := fun _ => []
  pricesFail := fun _ _ => false
  finnhubBulk := fun _ _ => []
  finnhubSingle := fun _ _ => some "AMC"
  transcriptTime := fun _ _ => some "BMO"
  history := fun _ => []
  today := 100

/-- A fresh (within 30 days) event with no Finnhub answer and no transcript
match: the timing verdict is Unknown. -/
def c5_world : World where
  calendarRaw := none
  largeCaps := []
  profiles := fun s => if s = "S" then some ⟨"S", "Sco", 1000000000, none, none⟩ else none
  bars := fun s =>
    if s = "S" then
      [⟨"S", -1, 90, 90, 90, 90, 0⟩, ⟨"S", 0, 100, 100, 100, 100, 0⟩,
       ⟨"S", 1, 110, 110, 110, 110, 0⟩]
    else []
  pricesFail := fun _ _ => false
  finnhubBulk := fun _ _ => []
  finnhubSingle := fun _ _ => none
  transcriptTime := fun _ _ => none
  history := fun _ => []
  today := 0

def c5_event : EarningsEvent := ⟨"S", "S", 0, none, none, none, none, none, none⟩

/-- An AMC event moving from close 32 to close 33: the unrounded change is
exactly 1/32 = 0.03125.  Run with `threshold = 0.03125` it passes the filter,
but the stored rounded change is `round(0.03125, 4) = 0.0312 < 0.03125`.  All
quantities here (32, 33, 1/32, 0.03125·10⁴ = 312.5) are dyadic rationals,
exactly representable as binary doubles, so CPython's float `round` performs
the same genuine half-to-even tie and stores 0.0312 as well. -/
def c7_world : World where
  calendarRaw := some [⟨some "QQQ", some 0, none, none, none, none⟩]
  largeCaps := []
  profiles := fun s => if s = "QQQ" then some ⟨"QQQ", "Qco", 2000000000, none, none⟩ else none
  bars := fun s =>
    if s = "QQQ" then
      [⟨"QQQ", -1, 30, 30, 30, 30, 0⟩, ⟨"QQQ", 0, 32, 32, 32, 32, 0⟩,
       ⟨"QQQ", 1, 33, 33, 33, 33, 0⟩]
    else []
  pricesFail := fun _ _ => false
  finnhubBulk := fun _ _ => [⟨"QQQ", some 0, "amc"⟩]
  finnhubSingle := fun _ _ => none
  transcriptTime := fun _ _ => none
  history := fun _ => []
  today := 0

def c7_record : BacktestResult :=
  ⟨"QQQ", "Qco", 2000000000, 0, some "AMC", 32, 33, 312 / 10000, 0, 1⟩

/-- A world where the earnings-calendar fetch raised. -/
def c9_world : World where
  calendarRaw := none
  largeCaps := []
  profiles := fun _ => none
  bars := fun _ => []
  pricesFail := fun _ _ => false
  finnhubBulk := fun _ _ => []
  finnhubSingle := fun _ _ => none
  transcriptTime := fun _ _ => none
  history := fun _ => []
  today := 0

/-- Single-stock lookup where the before bar closes at zero. -/
def c10a_world : World where
  calendarRaw := none
  largeCaps := []
  profiles := fun s => if s = "Z0" then some ⟨"Z0", "Z0co", 1000000000, none, none⟩ else none
  bars := fun s => if s = "Z0" then [⟨"Z0", 0, 0, 0, 0, 0, 0⟩] else []
  pricesFail := fun _ _ => false
  finnhubBulk := fun _ _ => []
  finnhubSingle := fun _ _ => none
  transcriptTime := fun _ _ => none
  history := fun _ => []
  today := 0

/-- Backtest run where the selected before bar (the AMC day-0 bar) closes at zero. -/
def c10b_world : World where
  calendarRaw := some [⟨some "QQ", some 0, none, none, none, none⟩]
  largeCaps := []
  profiles := fun s => if s = "QQ" then some ⟨"QQ", "QQco", 2000000000, none, none⟩ else none
  bars := fun s =>
    if s = "QQ" then
      [⟨"QQ", -1, 5, 5, 5, 5, 0⟩, ⟨"QQ", 0, 0, 0, 0, 0, 0⟩, ⟨"QQ", 1, 5, 5, 5, 5, 0⟩]
    else []
  pricesFail := fun _ _ => false
  finnhubBulk := fun _ _ => [⟨"QQ", some 0, "amc"⟩]
  finnhubSingle := fun _ _ => none
  transcriptTime := fun _ _ => none
  history := fun _ => []
  today := 0

def c10b_event : EarningsEvent := ⟨"QQ", "QQ", 0, none, none, none, none, none, none⟩

/-- History search where the fallback before bar closes at zero. -/
def c10c_world : World where
  calendarRaw := none
  largeCaps := []
  profiles := fun s => if s = "HH" then some ⟨"HH", "HHco", 1000000000, none, none⟩ else none
  bars := fun s =>
    if s = "HH" then [⟨"HH", 0, 0, 0, 0, 0, 0⟩, ⟨"HH", 1, 5, 5, 5, 5, 0⟩] else []
  pricesFail := fun _ _ => false
  finnhubBulk := fun _ _ => []
  finnhubSingle := fun _ _ => none
  transcriptTime := fun _ _ => none
  history := fun s => if s = "HH" then [⟨"HH", "HH", 0, none, none, none, none, none, none⟩] else []
  today := 100

def c10c_event : EarningsEvent := ⟨"HH", "HH", 0, none, none, none, none, none, none⟩

/-! ### General lemmas about the embedding -/

theorem priceMapLookup_date {prices : List StockPrice} {d : Int} {p : StockPrice}
    (h : priceMapLookup prices d = some p) : p.date = d := by
  unfold priceMapLookup at h
  have hm := List.mem_of_getLast?_eq_some h
  have := (List.mem_filter.mp hm).2
  simpa using this

theorem scanOffsets_shape {prices : List StockPrice} {base : Int} {p : StockPrice} :
    ∀ {offs : List Int}, scanOffsets prices base offs = some p →
      ∃ i ∈ offs, p.date = base + i := by
  intro offs
  induction offs with
  | nil => intro h; simp [scanOffsets] at h
  | cons i rest ih =>
    intro h
    unfold scanOffsets at h
    cases hl : priceMapLookup prices (base + i) with
    | some q =>
      rw [hl] at h
      cases h
      exact ⟨i, List.mem_cons_self i rest, priceMapLookup_date hl⟩
    | none =>
      rw [hl] at h
      obtain ⟨j, hj, hd⟩ := ih h
      exact ⟨j, List.mem_cons_of_mem i hj, hd⟩

theorem dayBeforePrice_date {prices : List StockPrice} {d : Int} {p : StockPrice}
    (h : dayBeforePrice prices d = some p) : d - 5 ≤ p.date ∧ p.date ≤ d - 1 := by
  obtain ⟨i, hi, hd⟩ := scanOffsets_shape h
  fin_cases hi <;> omega

theorem dayAfterPrice_date {prices : List StockPrice} {d : Int} {p : StockPrice}
    (h : dayAfterPrice prices d = some p) : d + 1 ≤ p.date ∧ p.date ≤ d + 5 := by
  obtain ⟨i, hi, hd⟩ := scanOffsets_shape h
  fin_cases hi <;> omega

/-- Whenever strict window resolution yields a before/after pair, the before bar is
strictly earlier than the after bar. -/
theorem determine_prices_lt {d : Int} {prices : List StockPrice} {tt et : Option String}
    {pb pa : StockPrice}
    (h : determine_prices d prices tt = (et, some pb, some pa)) : pb.date < pa.date := by
  unfold determine_prices at h
  rcases hE : priceMapLookup prices d with _ | e <;>
    rcases hB : dayBeforePrice prices d with _ | b <;>
      rcases hA : dayAfterPrice prices d with _ | a <;>
        rw [hE, hB, hA] at h <;>
          simp only [Option.isNone_none, Option.isNone_some, Option.isSome_none,
            Option.isSome_some, Bool.true_and, Bool.false_and, Bool.and_true, Bool.and_false,
            Bool.not_true, Bool.not_false, Bool.false_eq_true, Bool.true_eq_false,
            if_true, if_false, Bool.true_or, Bool.false_or, Bool.or_true, Bool.or_false] at h
  all_goals try (split at h)
  all_goals try (split at h)
  all_goals simp only [Prod.mk.injEq, Option.some.injEq] at h
  all_goals try simp at h
  all_goals obtain ⟨h1, h2, h3⟩ := h
  all_goals subst h2
  all_goals subst h3
  all_goals
    first
    | (have hb := dayBeforePrice_date hB
       have ha := dayAfterPrice_date hA
       omega)
    | (have hb := dayBeforePrice_date hB
       have he := priceMapLookup_date hE
       omega)
    | (have he := priceMapLookup_date hE
       have ha := dayAfterPrice_date hA
       omega)

/-- With an Unknown timing verdict (`transcript_time = None`) strict resolution is
Insufficient whatever the bars are. -/
theorem determine_prices_unknown (d : Int) (prices : List StockPrice) :
    determine_prices d prices none = (none, none, none) := by
  unfold determine_prices
  simp [truthyStr]

/-- When the event date has a bar but no prior-day bar exists within 5 days,
strict resolution is Insufficient for every timing verdict. -/
theorem determine_prices_no_prior {d : Int} {prices : List StockPrice} {tt : Option String}
    {e : StockPrice} (hE : priceMapLookup prices d = some e)
    (hB : dayBeforePrice prices d = none) :
    determine_prices d prices tt = (none, none, none) := by
  unfold determine_prices
  rw [hE, hB]
  simp

/-- The fallback resolver never reports a timing. -/
theorem determine_prices_fallback_fst (d : Int) (prices : List StockPrice) :
    (determine_prices_fallback d prices).1 = none := by
  simp only [determine_prices_fallback]
  rcases priceMapLookup prices d with _ | e <;>
    rcases dayBeforePrice prices d with _ | b <;>
      rcases dayAfterPrice prices d with _ | a <;> simp

/-- Whenever the fallback resolver yields a pair, the before bar is strictly
earlier than the after bar. -/
theorem determine_prices_fallback_lt {d : Int} {prices : List StockPrice} {et : Option String}
    {pb pa : StockPrice}
    (h : determine_prices_fallback d prices = (et, some pb, some pa)) : pb.date < pa.date := by
  unfold determine_prices_fallback at h
  rcases hE : priceMapLookup prices d with _ | e <;>
    rcases hB : dayBeforePrice prices d with _ | b <;>
      rcases hA : dayAfterPrice prices d with _ | a <;>
        rw [hE, hB, hA] at h <;> simp at h
  all_goals obtain ⟨h1, h2, h3⟩ := h
  all_goals subst h2
  all_goals subst h3
  all_goals
    first
    | (have hb := dayBeforePrice_date hB
       have ha := dayAfterPrice_date hA
       omega)
    | (have he := priceMapLookup_date hE
       have ha := dayAfterPrice_date hA
       omega)

/-- Every record in a successful loop run comes from the body on some listed event. -/
theorem event_loop_mem_inv {step : EarningsEvent → Except ZeroDivError (Option BacktestResult)}
    {evs : List EarningsEvent} {l : List BacktestResult}
    (h : event_loop step evs = .ok l) {r : BacktestResult} (hr : r ∈ l) :
    ∃ e ∈ evs, step e = .ok (some r) := by
  induction evs generalizing l with
  | nil =>
    unfold event_loop at h
    cases h
    simp at hr
  | cons e rest ih =>
    unfold event_loop at h
    cases hpe : step e with
    | error z => rw [hpe] at h; cases h
    | ok r? =>
      rw [hpe] at h
      cases hrest : event_loop step rest with
      | error z => rw [hrest] at h; cases h
      | ok rs =>
        rw [hrest] at h
        cases r? with
        | some r0 =>
          cases h
          rcases List.mem_cons.mp hr with rfl | hmem
          · exact ⟨e, List.mem_cons_self e rest, hpe⟩
          · obtain ⟨e', he', hs⟩ := ih hrest hmem
            exact ⟨e', List.mem_cons_of_mem e he', hs⟩
        | none =>
          cases h
          obtain ⟨e', he', hs⟩ := ih hrest hr
          exact ⟨e', List.mem_cons_of_mem e he', hs⟩

/-- A record emitted by the body of some listed event appears in a successful loop run. -/
theorem event_loop_mem_of {step : EarningsEvent → Except ZeroDivError (Option BacktestResult)}
    {evs : List EarningsEvent} {l : List BacktestResult} {e : EarningsEvent} {r : BacktestResult}
    (he : e ∈ evs) (hs : step e = .ok (some r)) (h : event_loop step evs = .ok l) : r ∈ l := by
  induction evs generalizing l with
  | nil => simp at he
  | cons e0 rest ih =>
    unfold event_loop at h
    cases hpe : step e0 with
    | error z => rw [hpe] at h; cases h
    | ok r? =>
      rw [hpe] at h
      cases hrest : event_loop step rest with
      | error z => rw [hrest] at h; cases h
      | ok rs =>
        rw [hrest] at h
        rcases List.mem_cons.mp he with rfl | hmem
        · rw [hs] at hpe
          cases hpe
          cases h
          exact List.mem_cons_self r rs
        · have hr := ih hmem hrest
          cases r? with
          | some r0 => cases h; exact List.mem_cons_of_mem r0 hr
          | none => cases h; exact hr

/-- If the body raises on some listed event, the loop never returns a list. -/
theorem event_loop_error {step : EarningsEvent → Except ZeroDivError (Option BacktestResult)}
    {evs : List EarningsEvent} {e : EarningsEvent} {z : ZeroDivError}
    (he : e ∈ evs) (hs : step e = .error z) :
    ∀ l, event_loop step evs ≠ .ok l := by
  induction evs with
  | nil => simp at he
  | cons e0 rest ih =>
    intro l h
    unfold event_loop at h
    cases hpe : step e0 with
    | error z0 => rw [hpe] at h; cases h
    | ok r? =>
      rw [hpe] at h
      rcases List.mem_cons.mp he with rfl | hmem
      · rw [hs] at hpe; cases hpe
      · cases hrest : event_loop step rest with
        | error z0 => rw [hrest] at h; cases h
        | ok rs => exact ih hmem rs hrest

/-- Filtering by a predicate that selects a single key class commutes with
`orderedInsert` (every selected element is `r`-below the inserted one if the
inserted one is selected). -/
theorem filter_orderedInsert {α : Type} (r : α → α → Prop) [DecidableRel r] (p : α → Bool)
    (a : α) (l : List α) (hp : ∀ b, p b = true → p a = true → r a b) :
    (List.orderedInsert r a l).filter p =
      if p a then a :: l.filter p else l.filter p := by
  induction l with
  | nil =>
    simp only [List.orderedInsert]
    by_cases hpa : p a <;> simp [List.filter_cons, hpa]
  | cons b t ih =>
    by_cases hr : r a b
    · simp only [List.orderedInsert, if_pos hr]
      by_cases hpa : p a <;> simp [List.filter_cons, hpa]
    · simp only [List.orderedInsert, if_neg hr, List.filter_cons]
      by_cases hpb : p b = true
      · have hpa : ¬ p a = true := fun hpa' => hr (hp b hpb hpa')
        rw [ih]
        simp [hpb, hpa]
      · simp only [Bool.not_eq_true] at hpb
        rw [ih]
        by_cases hpa : p a <;> simp [hpa, hpb]

/-- Stability of insertion sort, expressed through filters: the sorted list and the
input list agree on every single-key class. -/
theorem filter_insertionSort {α : Type} (r : α → α → Prop) [DecidableRel r] (p : α → Bool)
    (l : List α) (hp : ∀ a b, p a = true → p b = true → r a b) :
    (List.insertionSort r l).filter p = l.filter p := by
  induction l with
  | nil => rfl
  | cons a t ih =>
    simp only [List.insertionSort]
    rw [filter_orderedInsert r p a _ (fun b hb ha => hp a b ha hb)]
    by_cases hpa : p a <;> simp [hpa, ih, List.filter_cons]

/-- In a sorted list every element is related to the last one. -/
theorem sorted_rel_getLast {α : Type} {r : α → α → Prop} (hrefl : ∀ a, r a a) :
    ∀ (l : List α) (h : l ≠ []), l.Sorted r → ∀ x ∈ l, r x (l.getLast h)
  | [], h, _, _, _ => absurd rfl h
  | [a], _, _, x, hx => by
    simp only [List.mem_singleton] at hx
    subst hx
    simpa [List.getLast] using hrefl x
  | a :: b :: t, _, hs, x, hx => by
    rw [List.getLast_cons (by simp)]
    rcases List.mem_cons.mp hx with rfl | hmem
    · have hb := List.sorted_cons.mp hs
      exact hb.1 _ (List.getLast_mem (by simp))
    · exact sorted_rel_getLast hrefl (b :: t) (by simp) (List.sorted_cons.mp hs).2 x hmem

theorem roundHalfEven_intCast (m : ℤ) : roundHalfEven (m : ℚ) = m := by
  unfold roundHalfEven
  rw [Int.fract_intCast, Int.floor_intCast]
  norm_num

theorem floor_le_roundHalfEven (q : ℚ) : ⌊q⌋ ≤ roundHalfEven q := by
  unfold roundHalfEven
  split_ifs <;> omega

theorem roundHalfEven_le_floor_add_one (q : ℚ) : roundHalfEven q ≤ ⌊q⌋ + 1 := by
  unfold roundHalfEven
  split_ifs <;> omega

theorem roundHalfEven_mono {x y : ℚ} (h : x ≤ y) : roundHalfEven x ≤ roundHalfEven y := by
  rcases lt_or_eq_of_le (Int.floor_le_floor h) with hf | hf
  · calc roundHalfEven x ≤ ⌊x⌋ + 1 := roundHalfEven_le_floor_add_one x
      _ ≤ ⌊y⌋ := by omega
      _ ≤ roundHalfEven y := floor_le_roundHalfEven y
  · have hfr : Int.fract x ≤ Int.fract y := by
      unfold Int.fract
      rw [hf]
      linarith
    unfold roundHalfEven
    rw [hf]
    split_ifs <;> first | omega | linarith

/-- `round4` is monotone. -/
theorem round4_mono {x y : ℚ} (h : x ≤ y) : round4 x ≤ round4 y := by
  unfold round4
  have h1 : x * 10000 ≤ y * 10000 := by linarith
  have h2 := roundHalfEven_mono h1
  have h3 : ((roundHalfEven (x * 10000) : ℤ) : ℚ) ≤ ((roundHalfEven (y * 10000) : ℤ) : ℚ) := by
    exact_mod_cast h2
  linarith

/-- `round4` fixes every integer multiple of `1/10000`. -/
theorem round4_fixed (m : ℤ) : round4 ((m : ℚ) / 10000) = (m : ℚ) / 10000 := by
  unfold round4
  have hm : ((m : ℚ) / 10000) * 10000 = (m : ℚ) := by field_simp
  rw [hm, roundHalfEven_intCast]

/-- If the threshold is an integer multiple of `1/10000` and `θ ≤ |x|`, then
`θ ≤ |round4 x|` as well. -/
theorem abs_round4_ge {x θ : ℚ} (m : ℤ) (hθ : θ = (m : ℚ) / 10000) (h : θ ≤ |x|) :
    θ ≤ |round4 x| := by
  rcases le_abs.mp h with hx | hx
  · have h1 : round4 θ ≤ round4 x := round4_mono hx
    rw [hθ, round4_fixed] at h1
    calc θ = (m : ℚ) / 10000 := hθ
      _ ≤ round4 x := h1
      _ ≤ |round4 x| := le_abs_self _
  · have hneg : x ≤ -θ := by linarith
    have h1 : round4 x ≤ round4 (-θ) := round4_mono hneg
    have hθ' : -θ = ((-m : ℤ) : ℚ) / 10000 := by rw [hθ]; push_cast; ring
    rw [hθ', round4_fixed] at h1
    have h2 : round4 x ≤ -θ := by rw [hθ]; push_cast at h1 ⊢; linarith
    calc θ ≤ -(round4 x) := by linarith
      _ ≤ |round4 x| := neg_le_abs _

theorem except_map_ok {ε α β : Type} {x : Except ε α} {f : α → β} {b : β}
    (h : Except.map f x = .ok b) : ∃ a, x = .ok a ∧ b = f a := by
  cases x with
  | error z => simp [Except.map] at h
  | ok a =>
    refine ⟨a, rfl, ?_⟩
    simp only [Except.map, Except.ok.injEq] at h
    exact h.symm

/-- Decomposition of a successful `run_backtest`: the unsorted emission list
exists and the result is its stable sort. -/
theorem run_backtest_ok {w : World} {start_ end_ : Int} {mc θ : ℚ} {l : List BacktestResult}
    (h : run_backtest w start_ end_ mc θ = .ok l) :
    ∃ l₀, backtest_emissions w start_ end_ mc θ = .ok l₀ ∧ l = List.insertionSort absPctGE l₀ := by
  unfold run_backtest at h
  by_cases hc : get_earnings_calendar w.calendarRaw = []
  · rw [if_pos hc] at h
    cases h
    refine ⟨[], ?_, rfl⟩
    unfold backtest_emissions backtest_filtered_events
    rw [hc]
    have hfil : (if w.largeCaps = [] then ([] : List EarningsEvent)
        else List.filter (fun e => w.largeCaps.contains e.symbol) []) = [] := by
      split <;> rfl
    dsimp only
    rw [hfil]
    rfl
  · rw [if_neg hc] at h
    obtain ⟨l₀, h₀, hl⟩ := except_map_ok h
    exact ⟨l₀, h₀, hl⟩

/-- Decomposition of a successful `search_stock_earnings`. -/
theorem search_stock_earnings_ok {w : World} {symbol : String} {start_ end_ : Int}
    {l : List BacktestResult} (h : search_stock_earnings w symbol start_ end_ = .ok l) :
    ∃ l₀, search_emissions w symbol start_ end_ = .ok l₀ ∧
      l = List.insertionSort resultDateGE l₀ := by
  unfold search_stock_earnings at h
  obtain ⟨l₀, h₀, hl⟩ := except_map_ok h
  exact ⟨l₀, h₀, hl⟩

/-- Anatomy of a record emitted by the `run_backtest` per-event body. -/
theorem process_event_record {w : World} {mc θ : ℚ}
    {times : List ((String × Int) × String)} {e : EarningsEvent} {r : BacktestResult}
    (h : process_event w mc θ times e = .ok (some r)) :
    ∃ profile et pb pa,
      w.profiles e.symbol = some profile ∧
      ¬ profile.market_cap < mc ∧
      determine_prices e.earnings_date
          (get_prices_around_earnings (w.bars e.symbol) e.earnings_date)
          ((get_earnings_time_core w e.symbol e.earnings_date times).1) = (et, some pb, some pa) ∧
      pb.close ≠ 0 ∧
      ¬ |(pa.close - pb.close) / pb.close| < θ ∧
      r = ⟨e.symbol, profile.company_name, profile.market_cap, e.earnings_date, et,
           pb.close, pa.close, round4 ((pa.close - pb.close) / pb.close), pb.date, pa.date⟩ := by
  unfold process_event at h
  dsimp only at h
  split at h
  · exact absurd h (by simp)
  next profile hp =>
    split at h
    · exact absurd h (by simp)
    next h1 =>
      split at h
      · exact absurd h (by simp)
      next h2 =>
        split at h
        · exact absurd h (by simp)
        next h3 =>
          split at h
          next et pb pa hdet =>
            split at h
            · exact absurd h (by simp)
            next h4 =>
              split at h
              · exact absurd h (by simp)
              next h5 =>
                simp only [Except.ok.injEq, Option.some.injEq] at h
                exact ⟨profile, et, pb, pa, hp, h1, hdet, h4, h5, h.symm⟩
          next hne =>
            exact absurd h (by simp)

/-- Anatomy of a record emitted by the `search_stock_earnings` per-event body:
the pair comes either from strict resolution or, when that left a side missing,
from the assume-after-close fallback. -/
theorem search_process_event_record {w : World} {profile : CompanyProfile}
    {times : List ((String × Int) × String)} {e : EarningsEvent} {r : BacktestResult}
    (h : search_process_event w profile times e = .ok (some r)) :
    ∃ et pb pa,
      (determine_prices e.earnings_date
          (get_prices_around_earnings (w.bars e.symbol) e.earnings_date)
          ((get_earnings_time_core w e.symbol e.earnings_date times).1) = (et, some pb, some pa)
        ∨ determine_prices_fallback e.earnings_date
            (get_prices_around_earnings (w.bars e.symbol) e.earnings_date)
            = (et, some pb, some pa)) ∧
      pb.close ≠ 0 ∧
      r = ⟨e.symbol, profile.company_name, profile.market_cap, e.earnings_date, et,
           pb.close, pa.close, round4 ((pa.close - pb.close) / pb.close), pb.date, pa.date⟩ := by
  unfold search_process_event at h
  dsimp only at h
  split at h
  · exact absurd h (by simp)
  next h1 =>
    split at h
    · exact absurd h (by simp)
    next h2 =>
      split at h
      next et pb pa hres =>
        split at h
        · exact absurd h (by simp)
        next h4 =>
          simp only [Except.ok.injEq, Option.some.injEq] at h
          refine ⟨et, pb, pa, ?_, h4, h.symm⟩
          split at hres
          · exact Or.inr hres
          · exact Or.inl hres
      next hne =>
        exact absurd h (by simp)

/-- Anatomy of a record returned by `get_single_stock_backtest`. -/
theorem get_single_stock_backtest_record {w : World} {symbol : String} {d : Int}
    {r : BacktestResult} (h : get_single_stock_backtest w symbol d = .ok (some r)) :
    ∃ profile pb pa,
      w.profiles symbol = some profile ∧
      get_price_before_earnings (w.bars symbol) d = some pb ∧
      get_next_trading_day_price (w.bars symbol) d = some pa ∧
      pb.close ≠ 0 ∧
      r = ⟨symbol, profile.company_name, profile.market_cap, d, none,
           pb.close, pa.close, round4 ((pa.close - pb.close) / pb.close), pb.date, pa.date⟩ := by
  unfold get_single_stock_backtest at h
  split at h
  · exact absurd h (by simp)
  next profile hp =>
    split at h
    · exact absurd h (by simp)
    next pb hpb =>
      split at h
      · exact absurd h (by simp)
      next pa hpa =>
        split at h
        · exact absurd h (by simp)
        next h4 =>
          simp only [Except.ok.injEq, Option.some.injEq] at h
          exact ⟨profile, pb, pa, hp, hpb, hpa, h4, h.symm⟩

/-- The before-price query returns a bar of the `[d-5, d]` window dated `≤ d`. -/
theorem get_price_before_earnings_spec {bars : List StockPrice} {d : Int} {pb : StockPrice}
    (h : get_price_before_earnings bars d = some pb) :
    pb ∈ windowBars bars (d - 5) d ∧ pb.date ≤ d := by
  unfold get_price_before_earnings at h
  dsimp only at h
  split at h
  · cases h
  next hne =>
    have hmem := List.mem_of_find?_eq_some h
    have hp := List.find?_some h
    constructor
    · exact (List.Perm.mem_iff (List.perm_insertionSort priceDateGE _)).mp hmem
    · simpa using hp

/-- The historical-price query returns a bar of the `[t-5, t+5]` window; it is
either dated `≥ t` (the first such bar) or — when no bar of the window is — the
window's latest bar. -/
theorem get_historical_price_spec {bars : List StockPrice} {t : Int} {pa : StockPrice}
    (h : get_historical_price bars t = some pa) :
    pa ∈ windowBars bars (t - 5) (t + 5) ∧
      (t ≤ pa.date ∨ ∀ q ∈ windowBars bars (t - 5) (t + 5), q.date ≤ pa.date) := by
  unfold get_historical_price at h
  dsimp only at h
  split at h
  · cases h
  next hne =>
    split at h
    next p hfind =>
      cases h
      have hmem := List.mem_of_find?_eq_some hfind
      have hp := List.find?_some hfind
      constructor
      · exact (List.Perm.mem_iff (List.perm_insertionSort priceDateLE _)).mp hmem
      · left
        simpa using hp
    next hfind =>
      have hmem := List.mem_of_getLast?_eq_some h
      constructor
      · exact (List.Perm.mem_iff (List.perm_insertionSort priceDateLE _)).mp hmem
      · right
        intro q hq
        have hq' : q ∈ List.insertionSort priceDateLE (windowBars bars (t - 5) (t + 5)) :=
          (List.Perm.mem_iff (List.perm_insertionSort priceDateLE _)).mpr hq
        have hsne : List.insertionSort priceDateLE (windowBars bars (t - 5) (t + 5)) ≠ [] := by
          intro hnil
          rw [hnil] at hq'
          simp at hq'
        have hlast := List.getLast?_eq_getLast _ hsne
        rw [hlast] at h
        have := sorted_rel_getLast (r := priceDateLE) (fun a => le_refl a.date) _ hsne
          (List.sorted_insertionSort priceDateLE _) q hq'
        cases h
        exact this

/-- Every key of the bulk timing dict comes from a response entry with that
symbol and date. -/
theorem batch_get_earnings_time_mem {today from_ : Int} {resp : List FinnhubEntry}
    {kv : (String × Int) × String} (h : kv ∈ batch_get_earnings_time today from_ resp) :
    ∃ en ∈ resp, en.date = some kv.1.2 ∧ en.symbol = kv.1.1 := by
  unfold batch_get_earnings_time at h
  split at h
  · simp at h
  · obtain ⟨en, hen, hf⟩ := List.mem_filterMap.mp h
    refine ⟨en, hen, ?_⟩
    split at hf
    next d hd =>
      split at hf
      · cases hf
      split at hf
      · cases hf
      obtain ⟨t, hmt, hkv⟩ := Option.map_eq_some'.mp hf
      rw [← hkv]
      exact ⟨hd, rfl⟩
    next hd =>
      cases hf

/-- Under Unknown timing the `run_backtest` per-event body never emits a record
(nor raises): the event is skipped. -/
theorem process_event_unknown {w : World} {mc θ : ℚ}
    {times : List ((String × Int) × String)} {e : EarningsEvent}
    (h : (get_earnings_time_core w e.symbol e.earnings_date times).1 = none) :
    process_event w mc θ times e = .ok none := by
  unfold process_event
  cases hp : w.profiles e.symbol with
  | none => rfl
  | some profile =>
    dsimp only
    split
    · rfl
    split
    · rfl
    split
    · rfl
    rw [h, determine_prices_unknown]

theorem mem_windowBars {bars : List StockPrice} {lo hi : Int} {p : StockPrice} :
    p ∈ windowBars bars lo hi ↔ p ∈ bars ∧ lo ≤ p.date ∧ p.date ≤ hi := by
  unfold windowBars
  rw [List.mem_filter]
  simp

/-! ### Claims -/

/-- C1, counterexample: `getSingleStockReaction` can return a record whose
before and after bars are the same bar (here the only bar, on the event date
itself), so `before.date < after.date` fails as stated. -/
theorem c1_counterexample :
    get_single_stock_backtest c1_world "Z" 0 = .ok (some c1_record)
    ∧ ¬ c1_record.date_before < c1_record.date_after := by
  refine ⟨by decide, by decide⟩

/-- C1 (amended): every record returned by `runBacktest` or `searchStockHistory`
satisfies `before.date < after.date` strictly; `getSingleStockReaction`
guarantees only `before.date ≤ after.date` — when no bar later than the event
date exists in its lookup window, its after price falls back to the latest bar
at or before the event date and the two dates can coincide. -/
theorem c1_before_date_lt_after_date :
    (∀ (w : World) (s e : Int) (mc θ : ℚ) (l : List BacktestResult) (r : BacktestResult),
      run_backtest w s e mc θ = .ok l → r ∈ l → r.date_before < r.date_after)
    ∧ (∀ (w : World) (sym : String) (s e : Int) (l : List BacktestResult) (r : BacktestResult),
      search_stock_earnings w sym s e = .ok l → r ∈ l → r.date_before < r.date_after)
    ∧ (∀ (w : World) (sym : String) (d : Int) (r : BacktestResult),
      get_single_stock_backtest w sym d = .ok (some r) → r.date_before ≤ r.date_after) := by
  refine ⟨?_, ?_, ?_⟩
  · intro w s e mc θ l r hl hr
    obtain ⟨l₀, h₀, rfl⟩ := run_backtest_ok hl
    have hr₀ : r ∈ l₀ := (List.Perm.mem_iff (List.perm_insertionSort absPctGE l₀)).mp hr
    obtain ⟨ev, hev, hpe⟩ := event_loop_mem_inv h₀ hr₀
    obtain ⟨profile, et, pb, pa, -, -, hdet, -, -, rfl⟩ := process_event_record hpe
    exact determine_prices_lt hdet
  · intro w sym s e l r hl hr
    obtain ⟨l₀, h₀, rfl⟩ := search_stock_earnings_ok hl
    have hr₀ : r ∈ l₀ := (List.Perm.mem_iff (List.perm_insertionSort resultDateGE l₀)).mp hr
    unfold search_emissions at h₀
    cases hp : w.profiles sym <;> rw [hp] at h₀
    · cases h₀
      simp at hr₀
    next profile =>
      dsimp only at h₀
      by_cases hev : get_stock_earnings_history w sym s e = []
      · rw [if_pos hev] at h₀
        cases h₀
        simp at hr₀
      · rw [if_neg hev] at h₀
        unfold search_events at h₀
        obtain ⟨ev, hevm, hpe⟩ := event_loop_mem_inv h₀ hr₀
        obtain ⟨et, pb, pa, hdisj, -, rfl⟩ := search_process_event_record hpe
        rcases hdisj with hdet | hdet
        · exact determine_prices_lt hdet
        · exact determine_prices_fallback_lt hdet
  · intro w sym d r h
    obtain ⟨profile, pb, pa, -, hpb, hpa, -, rfl⟩ := get_single_stock_backtest_record h
    unfold get_next_trading_day_price at hpa
    obtain ⟨hmem1, hle⟩ := get_price_before_earnings_spec hpb
    obtain ⟨hmem2, hcase⟩ := get_historical_price_spec hpa
    obtain ⟨hpb_bars, hpb_lo, hpb_hi⟩ := mem_windowBars.mp hmem1
    obtain ⟨hpa_bars, hpa_lo, hpa_hi⟩ := mem_windowBars.mp hmem2
    rcases hcase with hge | hall
    · simp only []
      omega
    · by_cases hc : d + 1 - 5 ≤ pb.date
      · have hpbw : pb ∈ windowBars (w.bars sym) (d + 1 - 5) (d + 1 + 5) :=
          mem_windowBars.mpr ⟨hpb_bars, hc, by omega⟩
        exact hall pb hpbw
      · simp only []
        omega

/-- C1, witness: the amended statement applied to the concrete three-symbol run
and to the degenerate single-stock lookup. -/
theorem c1_witness :
    (run_backtest demo_world 0 0 1000000000 (1 / 10) = .ok [demo_rB, demo_rA, demo_rC]
      ∧ demo_rA.date_before < demo_rA.date_after)
    ∧ (get_single_stock_backtest c1_world "Z" 0 = .ok (some c1_record)
      ∧ c1_record.date_before ≤ c1_record.date_after) :=
  ⟨⟨by decide,
    c1_before_date_lt_after_date.1 demo_world 0 0 1000000000 (1 / 10)
      [demo_rB, demo_rA, demo_rC] demo_rA (by decide) (by decide)⟩,
   ⟨by decide,
    c1_before_date_lt_after_date.2.2 c1_world "Z" 0 c1_record (by decide)⟩⟩

/-- C2, counterexample: with AfterClose timing and bars on the event day and the
next day but no bar in the five days before, the resolver returns Insufficient
(`(none, none, none)`), not `(AfterClose, day0, day+1)`. -/
theorem c2_counterexample :
    determine_prices 0 c2_prices (some "AMC") = (none, none, none)
    ∧ determine_prices 0 c2_prices (some "AMC") ≠ (some "AMC", some c2_bar0, some c2_bar1) := by
  refine ⟨by decide, by decide⟩

/-- C2 (amended): whenever the event date itself has a bar, a prior-day bar
within `[d-5, d-1]` is required even for the AfterClose case — with the
event-day bar present and no prior bar, resolution is Insufficient for every
timing verdict. -/
theorem c2_prior_bar_required :
    ∀ (d : Int) (prices : List StockPrice) (tt : Option String) (e : StockPrice),
      priceMapLookup prices d = some e → dayBeforePrice prices d = none →
      determine_prices d prices tt = (none, none, none) := by
  intro d prices tt e hE hB
  exact determine_prices_no_prior hE hB

/-- C2, witness: the amended statement on the two-bar series. -/
theorem c2_witness :
    priceMapLookup c2_prices 0 = some c2_bar0
    ∧ dayBeforePrice c2_prices 0 = none
    ∧ determine_prices 0 c2_prices (some "AMC") = (none, none, none) :=
  ⟨by decide, by decide,
   c2_prior_bar_required 0 c2_prices (some "AMC") c2_bar0 (by decide) (by decide)⟩

/-- C3: every record emitted by any of the three engine operations stores as its
percentage change exactly `round((after.close - before.close)/before.close, 4)`
(the record's `price_before`/`price_after` fields are those closes). -/
theorem c3_percentage_change :
    (∀ (w : World) (s e : Int) (mc θ : ℚ) (l : List BacktestResult) (r : BacktestResult),
      run_backtest w s e mc θ = .ok l → r ∈ l →
      r.price_change_pct = round4 ((r.price_after - r.price_before) / r.price_before))
    ∧ (∀ (w : World) (sym : String) (d : Int) (r : BacktestResult),
      get_single_stock_backtest w sym d = .ok (some r) →
      r.price_change_pct = round4 ((r.price_after - r.price_before) / r.price_before))
    ∧ (∀ (w : World) (sym : String) (s e : Int) (l : List BacktestResult) (r : BacktestResult),
      search_stock_earnings w sym s e = .ok l → r ∈ l →
      r.price_change_pct = round4 ((r.price_after - r.price_before) / r.price_before)) := by
  refine ⟨?_, ?_, ?_⟩
  · intro w s e mc θ l r hl hr
    obtain ⟨l₀, h₀, rfl⟩ := run_backtest_ok hl
    have hr₀ : r ∈ l₀ := (List.Perm.mem_iff (List.perm_insertionSort absPctGE l₀)).mp hr
    obtain ⟨ev, hev, hpe⟩ := event_loop_mem_inv h₀ hr₀
    obtain ⟨profile, et, pb, pa, -, -, -, -, -, rfl⟩ := process_event_record hpe
    rfl
  · intro w sym d r h
    obtain ⟨profile, pb, pa, -, -, -, -, rfl⟩ := get_single_stock_backtest_record h
    rfl
  · intro w sym s e l r hl hr
    obtain ⟨l₀, h₀, rfl⟩ := search_stock_earnings_ok hl
    have hr₀ : r ∈ l₀ := (List.Perm.mem_iff (List.perm_insertionSort resultDateGE l₀)).mp hr
    unfold search_emissions at h₀
    cases hp : w.profiles sym <;> rw [hp] at h₀
    · cases h₀
      simp at hr₀
    next profile =>
      dsimp only at h₀
      by_cases hev : get_stock_earnings_history w sym s e = []
      · rw [if_pos hev] at h₀
        cases h₀
        simp at hr₀
      · rw [if_neg hev] at h₀
        unfold search_events at h₀
        obtain ⟨ev, hevm, hpe⟩ := event_loop_mem_inv h₀ hr₀
        obtain ⟨et, pb, pa, -, -, rfl⟩ := search_process_event_record hpe
        rfl

/-- C3, witness: the identity checked on one record of each operation. -/
theorem c3_witness :
    (run_backtest demo_world 0 0 1000000000 (1 / 10) = .ok [demo_rB, demo_rA, demo_rC]
      ∧ demo_rB.price_change_pct
          = round4 ((demo_rB.price_after - demo_rB.price_before) / demo_rB.price_before))
    ∧ (get_single_stock_backtest demo_world "AAA" 0 = .ok (some demo_single)
      ∧ demo_single.price_change_pct
          = round4 ((demo_single.price_after - demo_single.price_before) / demo_single.price_before))
    ∧ (search_stock_earnings search_world "HHH" 0 10 = .ok [search_r10, search_r0]
      ∧ search_r0.price_change_pct
          = round4 ((search_r0.price_after - search_r0.price_before) / search_r0.price_before)) :=
  ⟨⟨by decide,
    c3_percentage_change.1 demo_world 0 0 1000000000 (1 / 10)
      [demo_rB, demo_rA, demo_rC] demo_rB (by decide) (by decide)⟩,
   ⟨by decide,
    c3_percentage_change.2.1 demo_world "AAA" 0 demo_single (by decide)⟩,
   ⟨by decide,
    c3_percentage_change.2.2 search_world "HHH" 0 10
      [search_r10, search_r0] search_r0 (by decide) (by decide)⟩⟩

/-- C4: for a (symbol, date) more than 30 calendar days before today, given that
the bulk provider only reports entries inside the requested range, the clamped
bulk query range excludes the date, the pre-fetched timing dict has no key for
it, and classification goes straight to the transcript heuristic without ever
invoking the Finnhub single lookup (the instrumentation flag stays `false`). -/
theorem c4_timing_cutoff (w : World) (sym : String) (ed start_ end_ : Int)
    (hold : 30 < w.today - ed)
    (hresp : ∀ (lo hi : Int), ∀ en ∈ w.finnhubBulk lo hi, ∀ d, en.date = some d →
      lo ≤ d ∧ d ≤ hi) :
    ed < max start_ (w.today - 30)
    ∧ dictLookup (get_finnhub_earnings_times w start_ end_) (sym, ed) = none
    ∧ get_earnings_time_core w sym ed (get_finnhub_earnings_times w start_ end_)
        = (w.transcriptTime sym ed, false) := by
  have h1 : ed < max start_ (w.today - 30) := by
    have := le_max_right start_ (w.today - 30)
    omega
  have h2 : dictLookup (get_finnhub_earnings_times w start_ end_) (sym, ed) = none := by
    unfold get_finnhub_earnings_times
    dsimp only
    split
    · rfl
    next hrange =>
      unfold dictLookup
      cases hgl : (List.filter (fun kv => decide (kv.1 = (sym, ed)))
          (batch_get_earnings_time w.today (max start_ (w.today - 30))
            (w.finnhubBulk (max start_ (w.today - 30)) (min end_ w.today)))).getLast? with
      | none => rfl
      | some kv =>
        exfalso
        have hmem := List.mem_of_getLast?_eq_some hgl
        obtain ⟨hkv, hkey⟩ := List.mem_filter.mp hmem
        simp only [decide_eq_true_eq] at hkey
        obtain ⟨en, hen, hd, -⟩ := batch_get_earnings_time_mem hkv
        have := (hresp _ _ en hen kv.1.2 hd).1
        rw [hkey] at this
        omega
  refine ⟨h1, h2, ?_⟩
  unfold get_earnings_time_core
  rw [h2]
  dsimp only
  rw [if_neg (by omega)]

/-- C4, witness: a stale date in a world whose single-lookup oracle would say
AMC but whose transcript says BMO — the result is the transcript's BMO with the
single lookup never invoked. -/
theorem c4_witness :
    (0 : Int) < max (-10) (c4_world.today - 30)
    ∧ dictLookup (get_finnhub_earnings_times c4_world (-10) 10) ("OLD", 0) = none
    ∧ get_earnings_time_core c4_world "OLD" 0 (get_finnhub_earnings_times c4_world (-10) 10)
        = (some "BMO", false) := by
  have h := c4_timing_cutoff c4_world "OLD" 0 (-10) 10 (by decide)
    (fun lo hi en hen d hd => absurd hen (by simp [c4_world]))
  exact ⟨h.1, h.2.1, h.2.2⟩

/-- C5: with an Unknown timing verdict the strict resolver returns Insufficient
whatever bars are available, and the `run_backtest` per-event body emits no
record for such an event (it is skipped, `.ok none`). -/
theorem c5_unknown_insufficient :
    (∀ (d : Int) (prices : List StockPrice),
      determine_prices d prices none = (none, none, none))
    ∧ (∀ (w : World) (mc θ : ℚ) (times : List ((String × Int) × String)) (e : EarningsEvent),
      (get_earnings_time_core w e.symbol e.earnings_date times).1 = none →
      process_event w mc θ times e = .ok none) :=
  ⟨determine_prices_unknown, fun _ _ _ _ _ h => process_event_unknown h⟩

/-- C5, witness: a fresh event with no Finnhub answer and no transcript match. -/
theorem c5_witness :
    determine_prices 0 (c5_world.bars "S") none = (none, none, none)
    ∧ (get_earnings_time_core c5_world "S" 0 []).1 = none
    ∧ process_event c5_world 1000000000 (1 / 10) [] c5_event = .ok none :=
  ⟨c5_unknown_insufficient.1 0 (c5_world.bars "S"),
   by decide,
   c5_unknown_insufficient.2 c5_world 1000000000 (1 / 10) [] c5_event (by decide)⟩

/-- C6: the `run_backtest` result is sorted by absolute percentage change
descending, and on every class of equal absolute change it coincides with the
pre-sort emission list — ties keep first-seen (emission) order. -/
theorem c6_sorted_stable (w : World) (s e : Int) (mc θ : ℚ) (l l₀ : List BacktestResult)
    (hl : run_backtest w s e mc θ = .ok l)
    (h₀ : backtest_emissions w s e mc θ = .ok l₀) :
    List.Sorted absPctGE l
    ∧ ∀ q : ℚ, l.filter (fun r => decide (|r.price_change_pct| = q))
        = l₀.filter (fun r => decide (|r.price_change_pct| = q)) := by
  obtain ⟨l₁, h₁, rfl⟩ := run_backtest_ok hl
  rw [h₀] at h₁
  cases h₁
  constructor
  · exact List.sorted_insertionSort absPctGE l₀
  · intro q
    refine filter_insertionSort absPctGE _ l₀ ?_
    intro a b ha hb
    simp only [decide_eq_true_eq] at ha hb
    unfold absPctGE
    exact le_of_eq (hb.trans ha.symm)

/-- C6, witness: the three-symbol day — BBB (+20 %) first, then the tie AAA
(+10 %) before CCC (−10 %) in calendar (first-seen) order. -/
theorem c6_witness :
    run_backtest demo_world 0 0 1000000000 (1 / 10) = .ok [demo_rB, demo_rA, demo_rC]
    ∧ backtest_emissions demo_world 0 0 1000000000 (1 / 10) = .ok [demo_rA, demo_rB, demo_rC]
    ∧ List.Sorted absPctGE [demo_rB, demo_rA, demo_rC]
    ∧ List.filter (fun r => decide (|r.price_change_pct| = 1 / 10)) [demo_rB, demo_rA, demo_rC]
        = List.filter (fun r => decide (|r.price_change_pct| = 1 / 10))
            [demo_rA, demo_rB, demo_rC] := by
  refine ⟨by decide, by decide, ?_, ?_⟩
  · exact (c6_sorted_stable demo_world 0 0 1000000000 (1 / 10) [demo_rB, demo_rA, demo_rC]
      [demo_rA, demo_rB, demo_rC] (by decide) (by decide)).1
  · exact (c6_sorted_stable demo_world 0 0 1000000000 (1 / 10) [demo_rB, demo_rA, demo_rC]
      [demo_rA, demo_rB, demo_rC] (by decide) (by decide)).2 (1 / 10)

/-- C7, counterexample: with the configured threshold 0.03125 (= 1/32, exactly
representable in binary floating point) an event moving 32 → 33 has raw change
exactly 0.03125, passes the filter, but stores `round(0.03125, 4) = 0.0312`
(half-to-even on a genuine tie, identically in the float program and in this
exact-rational model), strictly below the threshold — so the claim fails for
arbitrary configured thresholds. -/
theorem c7_counterexample :
    run_backtest c7_world 0 0 1000000000 (1 / 32) = .ok [c7_record]
    ∧ |c7_record.price_change_pct| < 1 / 32 := by
  refine ⟨by decide, by decide⟩

/-- C7 (amended): the threshold filter is applied to the *unrounded* change, so
whenever the configured threshold is an integer multiple of `1/10000` (as the
default 0.10 is) every returned record satisfies `θ ≤ |price_change_pct|`; the
market-cap bound `minMarketCap ≤ marketCap` holds unconditionally. -/
theorem c7_threshold_and_cap (w : World) (s e : Int) (mc θ : ℚ) (m : ℤ)
    (hθ : θ = (m : ℚ) / 10000) (l : List BacktestResult)
    (hl : run_backtest w s e mc θ = .ok l) (r : BacktestResult) (hr : r ∈ l) :
    θ ≤ |r.price_change_pct| ∧ mc ≤ r.market_cap := by
  obtain ⟨l₀, h₀, rfl⟩ := run_backtest_ok hl
  have hr₀ : r ∈ l₀ := (List.Perm.mem_iff (List.perm_insertionSort absPctGE l₀)).mp hr
  obtain ⟨ev, hev, hpe⟩ := event_loop_mem_inv h₀ hr₀
  obtain ⟨profile, et, pb, pa, -, hcap, -, -, hth, rfl⟩ := process_event_record hpe
  constructor
  · exact abs_round4_ge m hθ (not_lt.mp hth)
  · exact not_lt.mp hcap

/-- C7, witness: the amended statement at the default threshold 0.10 = 1000/10⁴. -/
theorem c7_witness :
    run_backtest demo_world 0 0 1000000000 (1 / 10) = .ok [demo_rB, demo_rA, demo_rC]
    ∧ (1 : ℚ) / 10 ≤ |demo_rA.price_change_pct|
    ∧ (1000000000 : ℚ) ≤ demo_rA.market_cap := by
  refine ⟨by decide, ?_⟩
  have h := c7_threshold_and_cap demo_world 0 0 1000000000 (1 / 10) 1000 (by decide)
    [demo_rB, demo_rA, demo_rC] (by decide) demo_rA (by decide)
  exact ⟨h.1, h.2⟩

/-- C8: `search_stock_earnings` sorts by announcement date, newest first; it
emits every record its per-event body produces with no significance threshold;
and when strict resolution leaves a side of the pair missing, the body falls
back to the assume-after-close comparison, emitting the fallback pair with
timing reported as `none`. -/
theorem c8_search_fallback (w : World) (sym : String) (s e : Int)
    (l l₀ : List BacktestResult) (profile : CompanyProfile)
    (hprof : w.profiles sym = some profile)
    (hl : search_stock_earnings w sym s e = .ok l)
    (h₀ : search_emissions w sym s e = .ok l₀) :
    List.Sorted resultDateGE l
    ∧ (∀ (ev : EarningsEvent) (r : BacktestResult),
        ev ∈ get_stock_earnings_history w sym s e →
        search_process_event w profile (get_finnhub_earnings_times w s e) ev = .ok (some r) →
        r ∈ l)
    ∧ (∀ (ev : EarningsEvent) (pb pa : StockPrice),
        ((determine_prices ev.earnings_date
            (get_prices_around_earnings (w.bars ev.symbol) ev.earnings_date)
            ((get_earnings_time_core w ev.symbol ev.earnings_date
              (get_finnhub_earnings_times w s e)).1)).2.1 = none
          ∨ (determine_prices ev.earnings_date
            (get_prices_around_earnings (w.bars ev.symbol) ev.earnings_date)
            ((get_earnings_time_core w ev.symbol ev.earnings_date
              (get_finnhub_earnings_times w s e)).1)).2.2 = none) →
        determine_prices_fallback ev.earnings_date
            (get_prices_around_earnings (w.bars ev.symbol) ev.earnings_date)
          = (none, some pb, some pa) →
        w.pricesFail ev.symbol ev.earnings_date = false →
        ¬ (get_prices_around_earnings (w.bars ev.symbol) ev.earnings_date).length < 2 →
        ¬ pb.close = 0 →
        search_process_event w profile (get_finnhub_earnings_times w s e) ev
          = .ok (some ⟨ev.symbol, profile.company_name, profile.market_cap,
              ev.earnings_date, none, pb.close, pa.close,
              round4 ((pa.close - pb.close) / pb.close), pb.date, pa.date⟩)) := by
  obtain ⟨l₁, h₁, rfl⟩ := search_stock_earnings_ok hl
  rw [h₀] at h₁
  cases h₁
  refine ⟨List.sorted_insertionSort resultDateGE l₀, ?_, ?_⟩
  · intro ev r hev hpe
    have hr₀ : r ∈ l₀ := by
      unfold search_emissions at h₀
      rw [hprof] at h₀
      dsimp only at h₀
      by_cases hevs : get_stock_earnings_history w sym s e = []
      · rw [hevs] at hev
        simp at hev
      · rw [if_neg hevs] at h₀
        unfold search_events at h₀
        exact event_loop_mem_of hev hpe h₀
    exact (List.Perm.mem_iff (List.perm_insertionSort resultDateGE l₀)).mpr hr₀
  · intro ev pb pa hstrict hfb hpf hlen hz
    unfold search_process_event
    dsimp only
    rw [hpf]
    rw [if_neg (by simp)]
    rw [if_neg hlen]
    have hcond : ((determine_prices ev.earnings_date
        (get_prices_around_earnings (w.bars ev.symbol) ev.earnings_date)
        ((get_earnings_time_core w ev.symbol ev.earnings_date
          (get_finnhub_earnings_times w s e)).1)).2.1.isNone
        || (determine_prices ev.earnings_date
        (get_prices_around_earnings (w.bars ev.symbol) ev.earnings_date)
        ((get_earnings_time_core w ev.symbol ev.earnings_date
          (get_finnhub_earnings_times w s e)).1)).2.2.isNone) = true := by
      rcases hstrict with h | h <;> simp [h]
    rw [if_pos hcond, hfb]
    dsimp only
    rw [if_neg hz]

/-- C8, witness: the two-event history run — newest first, the +1 % day-0 record
kept despite being far below the 10 % threshold, and produced by the fallback
with timing `none`. -/
theorem c8_witness :
    search_stock_earnings search_world "HHH" 0 10 = .ok [search_r10, search_r0]
    ∧ List.Sorted resultDateGE [search_r10, search_r0]
    ∧ search_r0 ∈ [search_r10, search_r0]
    ∧ search_process_event search_world ⟨"HHH", "Hco", 5000000000, none, none⟩
        (get_finnhub_earnings_times search_world 0 10)
        ⟨"HHH", "HHH", 0, none, none, none, none, none, none⟩ = .ok (some search_r0)
    ∧ |search_r0.price_change_pct| < 1 / 10 := by
  have h := c8_search_fallback search_world "HHH" 0 10 [search_r10, search_r0]
    [search_r10, search_r0] ⟨"HHH", "Hco", 5000000000, none, none⟩
    (by decide) (by decide) (by decide)
  refine ⟨by decide, h.1, ?_, ?_, by decide⟩
  · exact h.2.1 ⟨"HHH", "HHH", 0, none, none, none, none, none, none⟩ search_r0 (by decide)
      ((h.2.2 ⟨"HHH", "HHH", 0, none, none, none, none, none, none⟩
        ⟨"HHH", 0, 100, 100, 100, 100, 0⟩ ⟨"HHH", 1, 101, 101, 101, 101, 0⟩
        (Or.inl (by decide)) (by decide) (by decide) (by decide) (by decide)).trans (by decide))
  · exact (h.2.2 ⟨"HHH", "HHH", 0, none, none, none, none, none, none⟩
      ⟨"HHH", 0, 100, 100, 100, 100, 0⟩ ⟨"HHH", 1, 101, 101, 101, 101, 0⟩
      (Or.inl (by decide)) (by decide) (by decide) (by decide) (by decide)).trans (by decide)

/-- C9: when the earnings-calendar fetch fails (the exception is swallowed and
parsed to no events) or genuinely returns no events, `run_backtest` returns the
empty list rather than an error — the two situations are indistinguishable. -/
theorem c9_calendar_failure_empty (w : World) (s e : Int) (mc θ : ℚ)
    (h : w.calendarRaw = none ∨ get_earnings_calendar w.calendarRaw = []) :
    run_backtest w s e mc θ = .ok [] := by
  have hempty : get_earnings_calendar w.calendarRaw = [] := by
    rcases h with h | h
    · rw [h]
      rfl
    · exact h
  unfold run_backtest
  rw [if_pos hempty]

/-- C9, witness: a world whose calendar fetch raised. -/
theorem c9_witness : run_backtest c9_world 0 0 1000000000 (1 / 10) = .ok [] :=
  c9_calendar_failure_empty c9_world 0 0 1000000000 (1 / 10) (Or.inl rfl)

/-- C10: the percentage-change division is unguarded.  When the event reaches
the division with a before-bar close of zero, the `run_backtest` per-event body
raises `ZeroDivisionError` instead of skipping the event, and the error aborts
the whole request (no result list is returned); likewise for
`get_single_stock_backtest` and `search_stock_earnings`. -/
theorem c10_zero_division_aborts :
    (∀ (w : World) (mc θ : ℚ) (times : List ((String × Int) × String)) (ev : EarningsEvent)
        (profile : CompanyProfile) (et : Option String) (pb pa : StockPrice),
      w.profiles ev.symbol = some profile →
      ¬ profile.market_cap < mc →
      w.pricesFail ev.symbol ev.earnings_date = false →
      ¬ (get_prices_around_earnings (w.bars ev.symbol) ev.earnings_date).length < 2 →
      determine_prices ev.earnings_date
          (get_prices_around_earnings (w.bars ev.symbol) ev.earnings_date)
          ((get_earnings_time_core w ev.symbol ev.earnings_date times).1)
        = (et, some pb, some pa) →
      pb.close = 0 →
      process_event w mc θ times ev = .error ⟨ev.symbol, ev.earnings_date⟩)
    ∧ (∀ (w : World) (s e : Int) (mc θ : ℚ) (ev : EarningsEvent) (z : ZeroDivError),
      ev ∈ backtest_filtered_events w →
      process_event w mc θ (get_finnhub_earnings_times w s e) ev = .error z →
      ∀ l, run_backtest w s e mc θ ≠ .ok l)
    ∧ (∀ (w : World) (sym : String) (d : Int) (profile : CompanyProfile) (pb pa : StockPrice),
      w.profiles sym = some profile →
      get_price_before_earnings (w.bars sym) d = some pb →
      get_next_trading_day_price (w.bars sym) d = some pa →
      pb.close = 0 →
      get_single_stock_backtest w sym d = .error ⟨sym, d⟩)
    ∧ (∀ (w : World) (sym : String) (s e : Int) (profile : CompanyProfile) (ev : EarningsEvent)
        (z : ZeroDivError),
      w.profiles sym = some profile →
      ev ∈ get_stock_earnings_history w sym s e →
      search_process_event w profile (get_finnhub_earnings_times w s e) ev = .error z →
      ∀ l, search_stock_earnings w sym s e ≠ .ok l) := by
  refine ⟨?_, ?_, ?_, ?_⟩
  · intro w mc θ times ev profile et pb pa hp hcap hpf hlen hdet hz
    unfold process_event
    rw [hp]
    dsimp only
    rw [if_neg hcap, hpf]
    rw [if_neg (by simp)]
    rw [if_neg hlen, hdet]
    dsimp only
    rw [if_pos hz]
  · intro w s e mc θ ev z hev hpe l hcontr
    have hne : get_earnings_calendar w.calendarRaw ≠ [] := by
      intro hnil
      unfold backtest_filtered_events at hev
      rw [hnil] at hev
      dsimp only at hev
      have hfil : (if w.largeCaps = [] then ([] : List EarningsEvent)
          else List.filter (fun e => w.largeCaps.contains e.symbol) []) = [] := by
        split <;> rfl
      rw [hfil] at hev
      simp [dedup_events] at hev
    unfold run_backtest at hcontr
    rw [if_neg hne] at hcontr
    obtain ⟨l₀, h₀, -⟩ := except_map_ok hcontr
    unfold backtest_emissions at h₀
    unfold run_events at h₀
    exact event_loop_error hev hpe l₀ h₀
  · intro w sym d profile pb pa hp hpb hpa hz
    unfold get_single_stock_backtest
    rw [hp, hpb, hpa]
    dsimp only
    rw [if_pos hz]
  · intro w sym s e profile ev z hp hev hpe l hcontr
    unfold search_stock_earnings at hcontr
    obtain ⟨l₀, h₀, -⟩ := except_map_ok hcontr
    unfold search_emissions at h₀
    rw [hp] at h₀
    dsimp only at h₀
    by_cases hevs : get_stock_earnings_history w sym s e = []
    · rw [hevs] at hev
      simp at hev
    · rw [if_neg hevs] at h₀
      unfold search_events at h₀
      exact event_loop_error hev hpe l₀ h₀

/-- C10, witness: zero-close before bars abort each of the three operations. -/
theorem c10_witness :
    get_single_stock_backtest c10a_world "Z0" 0 = .error ⟨"Z0", 0⟩
    ∧ process_event c10b_world 1000000000 (1 / 10)
        (get_finnhub_earnings_times c10b_world 0 0) c10b_event = .error ⟨"QQ", 0⟩
    ∧ run_backtest c10b_world 0 0 1000000000 (1 / 10) ≠ .ok []
    ∧ search_stock_earnings c10c_world "HH" 0 10 ≠ .ok [] := by
  refine ⟨?_, ?_, ?_, ?_⟩
  · exact c10_zero_division_aborts.2.2.1 c10a_world "Z0" 0 ⟨"Z0", "Z0co", 1000000000, none, none⟩
      ⟨"Z0", 0, 0, 0, 0, 0, 0⟩ ⟨"Z0", 0, 0, 0, 0, 0, 0⟩
      (by decide) (by decide) (by decide) (by decide)
  · exact c10_zero_division_aborts.1 c10b_world 1000000000 (1 / 10)
      (get_finnhub_earnings_times c10b_world 0 0) c10b_event
      ⟨"QQ", "QQco", 2000000000, none, none⟩ (some "AMC")
      ⟨"QQ", 0, 0, 0, 0, 0, 0⟩ ⟨"QQ", 1, 5, 5, 5, 5, 0⟩
      (by decide) (by decide) (by decide) (by decide) (by decide) (by decide)
  · exact c10_zero_division_aborts.2.1 c10b_world 0 0 1000000000 (1 / 10) c10b_event ⟨"QQ", 0⟩
      (by decide) (by decide) []
  · exact c10_zero_division_aborts.2.2.2 c10c_world "HH" 0 10
      ⟨"HH", "HHco", 1000000000, none, none⟩ c10c_event ⟨"HH", 0⟩
      (by decide) (by decide) (by decide) []
